import Mathlib

/-!
Shallow embedding of `export.py` (latex-asciinema-export): the `DisplayBuffer`
terminal-screen reconstruction core.  Python machine integers are modelled as
`Nat`/`Int`; Python exceptions (IndexError on list indexing, UnboundLocalError)
are modelled as explicit error results (`Bool` flags / `Option`).
-/

namespace AsciiExport

/-- A colour value as stored in `DisplayBuffer.color` and `Cell.color`:
Python stores either an `int` (palette index, from SGR 30-37 and the 38;5 path)
or a 3-tuple of ints (from the SGR 38 truecolor path).  `None` is modelled by
wrapping in `Option`. -/
inductive PColor where
  | indexed (n : Nat)
  | rgb (r g b : Nat)
deriving DecidableEq, Repr

/-- One grid position (`DisplayBuffer.Cell`): a display character (default
space) and an optional colour (default `None`). -/
structure Cell where
  c : Char := ' '
  color : Option PColor := none
deriving DecidableEq, Repr

/-- The screen buffer state (`DisplayBuffer.__init__`).  `contents` is the
list of rows, each a list of cells; the cursor coordinates are `Int` because
the Python code does signed arithmetic on them before clamping. -/
structure DisplayBuffer where
  width : Nat
  height : Nat
  cursor_x : Int
  cursor_y : Int
  color : Option PColor
  contents : List (List Cell)
deriving DecidableEq, Repr

/-- Constructor `DisplayBuffer(width, height)`: cursor at the origin, no colour, a
`height × width` grid of blank cells. -/
def mkBuffer (width height : Nat) : DisplayBuffer :=
  { width := width, height := height, cursor_x := 0, cursor_y := 0,
    color := none,
    contents := List.replicate height (List.replicate width {}) }

/-- Apply `f` to the element at index `n`, when it exists (used for in-place
row updates; within this development all updates are in range, as maintained
by the buffer invariant). -/
def modifyAt (f : α → α) : List α → Nat → List α
  | [], _ => []
  | a :: as, 0 => f a :: as
  | a :: as, n + 1 => a :: modifyAt f as n

/-- Model of `DisplayBuffer.__setitem__`: store character `c` at `(x, y)` and stamp the
cell with the buffer's current colour.  All call sites keep `0 ≤ x < width`
and `0 ≤ y < height` (the buffer invariant), so the `Int.toNat` coercions and
the in-range behaviour of `List.set`/`modifyAt` coincide with Python list
indexing. -/
def setItem (b : DisplayBuffer) (x y : Int) (c : Char) : DisplayBuffer :=
  { b with contents := modifyAt (fun row => row.set x.toNat ⟨c, b.color⟩) b.contents y.toNat }

/-- Read the cell at column `x` of row `y` (blank cell when out of range). -/
def getCell (b : DisplayBuffer) (x y : Nat) : Cell :=
  (b.contents.getD y []).getD x {}

/-- Python `range(a, c)` over integers, as the list `[a, a+1, ..., c-1]`. -/
def intRangeGo : Nat → Int → List Int
  | 0, _ => []
  | n + 1, a => a :: intRangeGo n (a + 1)

/-- Python `range(a, c)`. -/
def intRange (a c : Int) : List Int :=
  intRangeGo (c - a).toNat a

/-- Digit-run value, `int(part)`. -/
def digitsVal (ds : List Char) : Nat :=
  ds.foldl (fun n c => n * 10 + (c.toNat - 48)) 0

/-- Model of `re.findall(r'(\d+);?', sequence)` followed by `int(...)`: the maximal
runs of decimal digits of the string, left to right, as numbers. -/
def parseSgrGo (cur : List Char) : List Char → List Nat
  | [] => if cur.isEmpty then [] else [digitsVal cur]
  | c :: rest =>
      if c.isDigit then parseSgrGo (cur ++ [c]) rest
      else if cur.isEmpty then parseSgrGo [] rest
      else digitsVal cur :: parseSgrGo [] rest

/-- Parameter parsing of `DisplayBuffer.writeSgr`. -/
def parseSgrParts (s : List Char) : List Nat :=
  parseSgrGo [] s

/-- The parameter loop of `DisplayBuffer.writeSgr`, processing the suffix of
`parts` from the current index; returns the colour state together with an
error flag (`true` models the Python `IndexError` raised when the code reads
`parts[i+1]` or `parts[i+3]` past the end of the list; the colour component
is then the state at the moment of the exception).  The `fuel` argument only
drives the recursion; `fuel ≥ length` always suffices (`sgrGo_fuel`). -/
def sgrGo : Nat → List Nat → Option PColor → Option PColor × Bool
  | _, [], c => (c, false)
  | 0, _ :: _, c => (c, false)
  | fuel + 1, p :: rest, c =>
      if p = 0 then sgrGo fuel rest none
      else if p = 1 then sgrGo fuel rest c
      else if p = 4 then sgrGo fuel rest c
      else if p = 7 then sgrGo fuel rest c
      else if p = 22 then sgrGo fuel rest none
      else if p = 24 then sgrGo fuel rest c
      else if p = 27 then sgrGo fuel rest c
      else if 30 ≤ p ∧ p ≤ 37 then sgrGo fuel rest (some (.indexed (p - 30)))
      else if p = 38 then
        -- Python: `if len(parts) >= i+1 and parts[i+1] == 5`: the guard is
        -- always true for a live index `i`, so `parts[i+1]` is read
        -- unconditionally and raises IndexError when `rest` is empty.
        match rest with
        | [] => (c, true)
        | q :: rest2 =>
            if q = 5 then
              -- `self.color = parts[i+1]; i += 1` (the marker itself!)
              sgrGo fuel rest2 (some (.indexed q))
            else if 2 ≤ rest.length then
              -- `elif len(parts) >= i+3`: reads parts[i+1..i+3]; when
              -- len(parts) = i+3 exactly, `parts[i+3]` raises IndexError.
              match rest2 with
              | p2 :: p3 :: rest3 => sgrGo fuel rest3 (some (.rgb q p2 p3))
              | _ => (c, true)
            else
              -- `verbose("Invalid color sequence")`; `i += 1` only, so the
              -- lone follow-up parameter is reprocessed as its own code.
              sgrGo fuel (q :: rest2) c
      else if p = 39 then sgrGo fuel rest none
      else if 40 ≤ p ∧ p ≤ 47 then sgrGo fuel rest c
      else if p = 48 then sgrGo fuel rest c
      else sgrGo fuel rest c

/-- The `writeSgr` parameter loop, started with sufficient fuel. -/
def sgrLoop (parts : List Nat) (c : Option PColor) : Option PColor × Bool :=
  sgrGo parts.length parts c

/-- Model of `DisplayBuffer.writeSgr`: early-out reset on `"0"`/`""`, otherwise parse
and run the parameter loop.  The `Bool` is the IndexError flag. -/
def writeSgr (b : DisplayBuffer) (seq : List Char) : DisplayBuffer × Bool :=
  if seq = ['0'] ∨ seq = [] then ({ b with color := none }, false)
  else
    let parts := parseSgrParts seq
    let r := sgrLoop parts b.color
    ({ b with color := r.1 }, r.2)

/-- One scroll step (the body of the `while` loop in
`DisplayBuffer.moveCursor`): `row = self.contents.pop(0)`,
`self.contents.append(row)`, blank every cell of the last row through
`__setitem__` (which stamps the *current* colour), `self.cursor_y -= 1`. -/
def scrollOnce (b : DisplayBuffer) : DisplayBuffer :=
  let rotated := { b with contents := b.contents.tail ++ [b.contents.headD []] }
  let blanked := (intRange 0 rotated.width).foldl (fun acc x => setItem acc x ((acc.height : Int) - 1) ' ') rotated
  { blanked with cursor_y := b.cursor_y - 1 }

/-- The `while self.cursor_y >= self.height` loop, fuel-driven; each step
decrements `cursor_y` by one and keeps `height`, so
`(cursor_y + 1 - height).toNat` iterations always suffice. -/
def scrollGo : Nat → DisplayBuffer → DisplayBuffer
  | 0, b => b
  | fuel + 1, b => if (b.height : Int) ≤ b.cursor_y then scrollGo fuel (scrollOnce b) else b

/-- The scroll loop of `DisplayBuffer.moveCursor`, started with sufficient
fuel. -/
def scrollLoop (b : DisplayBuffer) : DisplayBuffer :=
  scrollGo (b.cursor_y + 1 - b.height).toNat b

/-- Model of `DisplayBuffer.moveCursor(dx, dy)`: add `dx`; wrap to column 0 with a
carried line feed when `cursor_x ≥ width`; clamp to 0 when negative; add the
(possibly carried) `dy`; then scroll while `cursor_y ≥ height`. -/
def moveCursor (b : DisplayBuffer) (dx dy : Int) : DisplayBuffer :=
  let x := b.cursor_x + dx
  let wrapped : Int × Int := if (b.width : Int) ≤ x then (0, dy + 1) else (x, dy)
  let x2 := if wrapped.1 < 0 then 0 else wrapped.1
  scrollLoop { b with cursor_x := x2, cursor_y := b.cursor_y + wrapped.2 }

/-- Model of `DisplayBuffer.writeText`: put each character at the cursor (with the
current colour) and advance by `(1, 0)`. -/
def writeText (b : DisplayBuffer) (text : List Char) : DisplayBuffer :=
  text.foldl (fun acc c => moveCursor (setItem acc acc.cursor_x acc.cursor_y c) 1 0) b

/-- Model of `DisplayBuffer.writeCR`. -/
def writeCR (b : DisplayBuffer) : DisplayBuffer :=
  moveCursor b (-b.cursor_x) 0

/-- Model of `DisplayBuffer.writeLF` (behaves as CR+LF). -/
def writeLF (b : DisplayBuffer) : DisplayBuffer :=
  moveCursor b (-b.cursor_x) 1

/-- Model of `DisplayBuffer.writeBackspace`. -/
def writeBackspace (b : DisplayBuffer) : DisplayBuffer :=
  let b1 := moveCursor b (-1) 0
  setItem b1 b1.cursor_x b1.cursor_y ' '

/-- Model of `DisplayBuffer.erase(function, sequence)`.  The four recognized mode
strings select the blank ranges; any other mode string leaves
`startx`/`endx`/`starty`/`endy` unassigned and the subsequent
`range(startx, endx)` raises `UnboundLocalError`, modelled as `none`.
The line pass blanks `[startx, endx)` of the cursor row; for `J` the screen
pass additionally blanks all columns of the rows `[starty, endy)`. -/
def erase (b : DisplayBuffer) (function : Char) (seq : List Char) : Option DisplayBuffer :=
  let ranges : Option (Int × Int × Int × Int) :=
    if seq = ['0'] ∨ seq = [] then some (b.cursor_x, b.width, b.cursor_y + 1, b.height)
    else if seq = ['1'] then some (0, b.cursor_x, 0, b.cursor_y - 1)
    else if seq = ['2'] then some (0, b.width, 0, b.height)
    else none
  match ranges with
  | none => none
  | some (startx, endx, starty, endy) =>
      let b1 := (intRange startx endx).foldl (fun acc x => setItem acc x acc.cursor_y ' ') b
      if function = 'K' then some b1
      else some ((intRange starty endy).foldl (fun acc y => (intRange 0 acc.width).foldl (fun a2 x => setItem a2 x y ' ') acc) b1)

/-- Model of `DisplayBuffer.writeCsi`: dispatch on the final byte of the CSI body
(`sequence[-1]`); the body always ends in a final byte when produced by the
tokenizer, so the empty case (IndexError in Python) is an error. -/
def writeCsi (b : DisplayBuffer) (sequence : List Char) : DisplayBuffer × Bool :=
  match sequence.getLast? with
  | none => (b, true)
  | some function =>
      let seq := sequence.dropLast
      if function = 'm' then writeSgr b seq
      else if function = 'J' ∨ function = 'K' then
        match erase b function seq with
        | some b1 => (b1, false)
        | none => (b, true)
      else (b, false)

/-! ### Tokenizer (`DisplayBuffer.write` and its regexes) -/

/-- Character class `[\x20-\x7e]` (printable ASCII), the `text_regex` character class. -/
def isPrintableChar (c : Char) : Bool :=
  0x20 ≤ c.toNat ∧ c.toNat ≤ 0x7e

/-- Character class `[\x30-\x3f]`, CSI parameter bytes. -/
def isParamByte (c : Char) : Bool :=
  0x30 ≤ c.toNat ∧ c.toNat ≤ 0x3f

/-- Character class `[\x20-\x2f]`, CSI intermediate bytes. -/
def isInterByte (c : Char) : Bool :=
  0x20 ≤ c.toNat ∧ c.toNat ≤ 0x2f

/-- Character class `[\x40-\x7e]`, CSI final bytes. -/
def isFinalByte (c : Char) : Bool :=
  0x40 ≤ c.toNat ∧ c.toNat ≤ 0x7e

/-- Model of `re.match(OSC_regex, data)` where `OSC_regex = (\x1b]|\x9d)[^\x07]*\x07`:
returns the length of the match.  The body `[^\x07]*` cannot contain BEL, so
a match runs to the first BEL after the introducer, if any. -/
def matchOsc (data : List Char) : Option Nat :=
  let pfxLen : Option Nat :=
    match data with
    | '\x1b' :: ']' :: _ => some 2
    | c :: _ => if c.toNat = 0x9d then some 1 else none
    | [] => none
  match pfxLen with
  | none => none
  | some k =>
      match (data.drop k).findIdx? (fun c => c = '\x07') with
      | some j => some (k + j + 1)
      | none => none

/-- Model of `re.match(CSI_regex, data)` where
`CSI_regex = (\x1b\[|\x9b)([\x30-\x3f]*[\x20-\x2f]*[\x40-\x7e])`: returns the
total match length and the contents of group 2 (parameter bytes, intermediate
bytes, final byte).  The three character classes are pairwise disjoint, so
greedy matching without backtracking is exact. -/
def matchCsi (data : List Char) : Option (Nat × List Char) :=
  let pfxLen : Option Nat :=
    match data with
    | '\x1b' :: '[' :: _ => some 2
    | c :: _ => if c.toNat = 0x9b then some 1 else none
    | [] => none
  match pfxLen with
  | none => none
  | some k =>
      let rest := data.drop k
      let params := rest.takeWhile isParamByte
      let rest2 := rest.drop params.length
      let inters := rest2.takeWhile isInterByte
      match rest2.drop inters.length with
      | f :: _ =>
          if isFinalByte f then some (k + params.length + inters.length + 1, params ++ inters ++ [f])
          else none
      | [] => none

/-- Model of `re.match(C0_regex, data)` where `C0_regex = \x1b[\x00-\x7f]`. -/
def matchC0 (data : List Char) : Option Nat :=
  match data with
  | '\x1b' :: c :: _ => if c.toNat ≤ 0x7f then some 2 else none
  | _ => none

/-- Model of `re.match(text_regex, data)` where `text_regex = [\x20-\x7e]+`. -/
def matchText (data : List Char) : Option (List Char) :=
  let run := data.takeWhile isPrintableChar
  if run.isEmpty then none else some run

/-- One iteration of the `while len(data) > 0` loop of
`DisplayBuffer.write`: try OSC, CSI, C0, printable run, then the single-byte
fallback, in that order.  Returns the new buffer, the error flag (a Python
exception escaping `writeCsi`), and the number of characters consumed. -/
def writeStep (b : DisplayBuffer) (data : List Char) : DisplayBuffer × Bool × Nat :=
  match matchOsc data with
  | some n => (b, false, n)
  | none =>
  match matchCsi data with
  | some (n, grp) =>
      let r := writeCsi b grp
      (r.1, r.2, n)
  | none =>
  match matchC0 data with
  | some n => (b, false, n)
  | none =>
  match matchText data with
  | some run => (writeText b run, false, run.length)
  | none =>
  match data with
  | [] => (b, false, 0)
  | c :: _ =>
      if c = '\x08' then (writeBackspace b, false, 1)
      else if c = '\x0d' then (writeCR b, false, 1)
      else if c = '\x0a' then (writeLF b, false, 1)
      else (b, false, 1)

/-- The `while` loop of `DisplayBuffer.write`, fuel-driven; every step
consumes at least one character, so `data.length` fuel always suffices.  An
error stops processing (the Python exception propagates out of `write`),
returning the buffer state at that point. -/
def writeGo : Nat → DisplayBuffer → List Char → DisplayBuffer × Bool
  | 0, b, _ => (b, false)
  | fuel + 1, b, data =>
      if data.isEmpty then (b, false)
      else
        let r := writeStep b data
        if r.2.1 then (r.1, true) else writeGo fuel r.1 (data.drop r.2.2)

/-- Model of `DisplayBuffer.write(data)`, with sufficient fuel. -/
def write (b : DisplayBuffer) (data : List Char) : DisplayBuffer × Bool :=
  writeGo data.length b data

/-- Feed a list of chunks through `write` in order (the replay loop of
`main`), stopping at the first escaping exception. -/
def feed : DisplayBuffer → List (List Char) → DisplayBuffer × Bool
  | b, [] => (b, false)
  | b, d :: ds =>
      let r := write b d
      if r.2 then (r.1, true) else feed r.1 ds

/-! ### Renderer (`DisplayBuffer.render`) -/

/-- One call on the renderer backend (the capability interface shared by
`TerminalRenderer` and `LatexRenderer`). -/
inductive REvent where
  | setAnsiColor (n : Nat)
  | setRgbColor (r g b : Nat)
  | restoreColor
  | writeCharacter (c : Char)
  | writeNewline
deriving DecidableEq, Repr

/-- The per-cell body of `DisplayBuffer.render`: emit a colour call when the
cell's colour differs from the tracked one, then write the character. -/
def renderCell (prev : Option PColor) (cell : Cell) : List REvent × Option PColor :=
  if cell.color ≠ prev then
    let ev := match cell.color with
      | none => REvent.restoreColor
      | some (.indexed n) => REvent.setAnsiColor n
      | some (.rgb r g b) => REvent.setRgbColor r g b
    ([ev, .writeCharacter cell.c], cell.color)
  else ([.writeCharacter cell.c], prev)

/-- The inner (per-row) loop of `DisplayBuffer.render`. -/
def renderRow (prev : Option PColor) : List Cell → List REvent × Option PColor
  | [] => ([], prev)
  | cell :: rest =>
      let r1 := renderCell prev cell
      let r2 := renderRow r1.2 rest
      (r1.1 ++ r2.1, r2.2)

/-- The outer loop of `DisplayBuffer.render`: each row followed by
`writeNewline`, the tracked colour carried across rows. -/
def renderRows (prev : Option PColor) : List (List Cell) → List REvent × Option PColor
  | [] => ([], prev)
  | row :: rows =>
      let r1 := renderRow prev row
      let r2 := renderRows r1.2 rows
      (r1.1 ++ [.writeNewline] ++ r2.1, r2.2)

/-- Model of `DisplayBuffer.render(renderer)` as the list of backend calls it makes;
`prevcolor` starts as `None`. -/
def render (b : DisplayBuffer) : List REvent :=
  (renderRows none b.contents).1

/-- Whether an event is a colour-set call
(`setAnsiColor`/`setRgbColor`/`restoreColor`). -/
def isColorSet : REvent → Bool
  | .setAnsiColor _ => true
  | .setRgbColor _ _ _ => true
  | .restoreColor => true
  | _ => false

/-- Number of colour-set calls in an event list. -/
def countColorSets (evs : List REvent) : Nat :=
  (evs.filter isColorSet).length

/-- Number of colour transitions of a colour sequence relative to a starting
colour: a transition at each element that differs from its predecessor. -/
def countTransitions (prev : Option PColor) : List (Option PColor) → Nat
  | [] => 0
  | c :: rest => (if c ≠ prev then 1 else 0) + countTransitions c rest

/-- The colours of the grid in row-major order. -/
def rowMajorColors (b : DisplayBuffer) : List (Option PColor) :=
  (b.contents.map (fun row => row.map Cell.color)).flatten

/-! ### The buffer invariant -/

/-- The documented invariant of `DisplayBuffer`: positive dimensions, cursor
in bounds, and a grid of exactly `height` rows of `width` cells each. -/
def Inv (b : DisplayBuffer) : Prop :=
  0 < b.width ∧ 0 < b.height ∧
  0 ≤ b.cursor_x ∧ b.cursor_x < (b.width : Int) ∧
  0 ≤ b.cursor_y ∧ b.cursor_y < (b.height : Int) ∧
  b.contents.length = b.height ∧
  ∀ row ∈ b.contents, row.length = b.width

instance (b : DisplayBuffer) : Decidable (Inv b) := by
  unfold Inv; infer_instance

/-- Total number of cells in the grid. -/
def cellCount (b : DisplayBuffer) : Nat :=
  (b.contents.map List.length).sum

/-- Relation `Pres b r`: `r` agrees with `b` on every field except the cell values —
dimensions, cursor, colour, and the length of every row.  All the blanking
folds preserve this. -/
def Pres (b r : DisplayBuffer) : Prop :=
  r.width = b.width ∧ r.height = b.height ∧ r.cursor_x = b.cursor_x ∧
  r.cursor_y = b.cursor_y ∧ r.color = b.color ∧
  r.contents.map List.length = b.contents.map List.length

/-- Relation `EraseApprox b r`: `r` agrees with `b` except that some cells may have
been blanked to a space stamped with `b`'s current colour. -/
def EraseApprox (b r : DisplayBuffer) : Prop :=
  Pres b r ∧ ∀ i j : Nat, getCell r i j = getCell b i j ∨ getCell r i j = (⟨' ', b.color⟩ : Cell)

/-- A 3×3 buffer full of `'a'` with the cursor at `(1, 2)`, used to exhibit
the erase-to-start boundaries. -/
def c6buf : DisplayBuffer :=
  ⟨3, 3, 1, 2, none, List.replicate 3 (List.replicate 3 ⟨'a', none⟩)⟩

/-- A 2×2 buffer of `'a'` cells whose cursor has been carried two lines past
the bottom while a colour is active, used to exhibit the scroll loop. -/
def c7buf : DisplayBuffer :=
  ⟨2, 2, 0, 3, some (.indexed 1), List.replicate 2 (List.replicate 2 ⟨'a', none⟩)⟩

/-! ### Basic list lemmas -/

theorem modifyAt_length (f : α → α) : ∀ (l : List α) (n : Nat), (modifyAt f l n).length = l.length
  | [], _ => rfl
  | _ :: _, 0 => rfl
  | a :: as, n + 1 => by simp [modifyAt, modifyAt_length f as n]

theorem getD_modifyAt (f : α → α) (d : α) :
    ∀ (l : List α) (n j : Nat),
      (modifyAt f l n).getD j d = if n = j ∧ j < l.length then f (l.getD j d) else l.getD j d := by
  intro l
  induction l with
  | nil => intro n j; simp [modifyAt]
  | cons a as ih =>
    intro n j
    cases n with
    | zero =>
      cases j with
      | zero => simp [modifyAt]
      | succ j => simp [modifyAt]
    | succ n =>
      cases j with
      | zero => simp [modifyAt]
      | succ j =>
        simp only [modifyAt, List.getD_cons_succ, List.length_cons, ih n j]
        by_cases h : n = j ∧ j < as.length
        · simp [h.1, h.2, Nat.succ_lt_succ h.2]
        · rw [if_neg h, if_neg]
          omega

theorem getD_set (d a : α) :
    ∀ (l : List α) (n j : Nat),
      (l.set n a).getD j d = if n = j ∧ j < l.length then a else l.getD j d := by
  intro l
  induction l with
  | nil => intro n j; simp
  | cons x xs ih =>
    intro n j
    cases n with
    | zero =>
      cases j with
      | zero => simp
      | succ j => simp
    | succ n =>
      cases j with
      | zero => simp
      | succ j =>
        simp only [List.set_cons_succ, List.getD_cons_succ, List.length_cons, ih n j]
        by_cases h : n = j ∧ j < xs.length
        · simp [h.1, h.2, Nat.succ_lt_succ h.2]
        · rw [if_neg h, if_neg]
          omega

theorem mem_intRangeGo : ∀ (n : Nat) (a x : Int), x ∈ intRangeGo n a ↔ a ≤ x ∧ x < a + n := by
  intro n
  induction n with
  | zero => intro a x; simp [intRangeGo]
  | succ n ih =>
    intro a x
    simp only [intRangeGo, List.mem_cons, ih (a + 1) x]
    omega

theorem mem_intRange (a c x : Int) : x ∈ intRange a c ↔ a ≤ x ∧ x < c := by
  rw [intRange, mem_intRangeGo]
  omega

theorem getD_in_range_mem {l : List α} {j : Nat} (h : j < l.length) (d : α) : l.getD j d ∈ l := by
  rw [List.getD_eq_getElem l d h]
  exact List.getElem_mem h

/-! ### Frame lemmas: which fields each operation leaves untouched -/

@[simp] theorem setItem_width (b : DisplayBuffer) (x y : Int) (c : Char) : (setItem b x y c).width = b.width := rfl

@[simp] theorem setItem_height (b : DisplayBuffer) (x y : Int) (c : Char) : (setItem b x y c).height = b.height := rfl

@[simp] theorem setItem_cursor_x (b : DisplayBuffer) (x y : Int) (c : Char) : (setItem b x y c).cursor_x = b.cursor_x := rfl

@[simp] theorem setItem_cursor_y (b : DisplayBuffer) (x y : Int) (c : Char) : (setItem b x y c).cursor_y = b.cursor_y := rfl

@[simp] theorem setItem_color (b : DisplayBuffer) (x y : Int) (c : Char) : (setItem b x y c).color = b.color := rfl

@[simp] theorem setItem_contents_length (b : DisplayBuffer) (x y : Int) (c : Char) :
    (setItem b x y c).contents.length = b.contents.length := by
  simp [setItem, modifyAt_length]

theorem mem_modifyAt (f : α → α) :
    ∀ (l : List α) (n : Nat) (x : α), x ∈ modifyAt f l n → x ∈ l ∨ ∃ y ∈ l, x = f y := by
  intro l
  induction l with
  | nil => intro n x h; simp [modifyAt] at h
  | cons a as ih =>
    intro n x h
    cases n with
    | zero =>
      rcases List.mem_cons.mp h with h1 | h1
      · exact Or.inr ⟨a, List.mem_cons_self a as, h1⟩
      · exact Or.inl (List.mem_cons_of_mem a h1)
    | succ n =>
      rcases List.mem_cons.mp h with h1 | h1
      · exact Or.inl (h1 ▸ List.mem_cons_self a as)
      · rcases ih n x h1 with h2 | ⟨y, hy, hxy⟩
        · exact Or.inl (List.mem_cons_of_mem a h2)
        · exact Or.inr ⟨y, List.mem_cons_of_mem a hy, hxy⟩

theorem setItem_rows (b : DisplayBuffer) (x y : Int) (c : Char)
    (hrows : ∀ row ∈ b.contents, row.length = b.width) :
    ∀ row ∈ (setItem b x y c).contents, row.length = b.width := by
  intro row hrow
  rcases mem_modifyAt _ _ _ _ hrow with h | ⟨r, hr, hfr⟩
  · exact hrows row h
  · rw [hfr, List.length_set]
    exact hrows r hr

/-- Pointwise effect of `setItem` (nested-if form). -/
theorem getCell_setItem (b : DisplayBuffer) (x y : Int) (c : Char) (i j : Nat) :
    getCell (setItem b x y c) i j =
      if y.toNat = j ∧ j < b.contents.length then
        (if x.toNat = i ∧ i < (b.contents.getD j []).length then ⟨c, b.color⟩ else getCell b i j)
      else getCell b i j := by
  unfold getCell setItem
  simp only []
  rw [getD_modifyAt]
  by_cases h1 : y.toNat = j ∧ j < b.contents.length
  · simp only [if_pos h1, getD_set]
  · simp only [if_neg h1]

/-! ### Fold preservation machinery -/

theorem foldl_preserve {f : β → α → β} {P : β → Prop} (h : ∀ acc x, P acc → P (f acc x)) :
    ∀ (xs : List α) (b : β), P b → P (xs.foldl f b)
  | [], _, hb => hb
  | x :: xs, b, hb => foldl_preserve h xs (f b x) (h b x hb)

theorem map_length_modifyAt (f : List Cell → List Cell) (hf : ∀ a, (f a).length = a.length) :
    ∀ (l : List (List Cell)) (n : Nat), (modifyAt f l n).map List.length = l.map List.length := by
  intro l
  induction l with
  | nil => intro n; rfl
  | cons a as ih =>
    intro n
    cases n with
    | zero => simp [modifyAt, hf]
    | succ n => simp [modifyAt, ih n]

theorem pres_refl (b : DisplayBuffer) : Pres b b :=
  ⟨rfl, rfl, rfl, rfl, rfl, rfl⟩

theorem pres_setItem {b r : DisplayBuffer} (x y : Int) (c : Char) (h : Pres b r) :
    Pres b (setItem r x y c) := by
  obtain ⟨h1, h2, h3, h4, h5, h6⟩ := h
  refine ⟨h1, h2, h3, h4, h5, ?_⟩
  rw [setItem]
  simp only []
  rw [map_length_modifyAt _ (fun a => List.length_set a _ _), h6]

theorem pres_length {b r : DisplayBuffer} (h : Pres b r) : r.contents.length = b.contents.length := by
  have := congrArg List.length h.2.2.2.2.2
  simpa using this

theorem pres_rows {b r : DisplayBuffer} (h : Pres b r) (hrows : ∀ row ∈ b.contents, row.length = b.width) :
    ∀ row ∈ r.contents, row.length = b.width := by
  intro row hrow
  have hmem : row.length ∈ r.contents.map List.length := List.mem_map_of_mem List.length hrow
  rw [h.2.2.2.2.2] at hmem
  obtain ⟨row2, hrow2, hlen2⟩ := List.mem_map.mp hmem
  rw [← hlen2]
  exact hrows row2 hrow2

theorem setItem_inv (b : DisplayBuffer) (x y : Int) (c : Char) (hb : Inv b) : Inv (setItem b x y c) := by
  obtain ⟨h1, h2, h3, h4, h5, h6, h7, h8⟩ := hb
  exact ⟨h1, h2, h3, h4, h5, h6, by simpa using h7, setItem_rows b x y c h8⟩

theorem setFoldY_pres (y : Int) (xs : List Int) (b : DisplayBuffer) :
    Pres b (xs.foldl (fun acc x => setItem acc x y ' ') b) := by
  refine foldl_preserve ?_ xs b (pres_refl b)
  intro acc x h
  exact pres_setItem x y ' ' h

theorem cursorFold_pres (xs : List Int) (b : DisplayBuffer) :
    Pres b (xs.foldl (fun acc x => setItem acc x acc.cursor_y ' ') b) := by
  refine foldl_preserve ?_ xs b (pres_refl b)
  intro acc x h
  exact pres_setItem x acc.cursor_y ' ' h

/-- The erase line pass reads `self.cursor_y` afresh at each `__setitem__`,
but no step changes it, so it equals the fold with the initial value. -/
theorem cursorFold_eq (xs : List Int) :
    ∀ b : DisplayBuffer, xs.foldl (fun acc x => setItem acc x acc.cursor_y ' ') b
      = xs.foldl (fun acc x => setItem acc x b.cursor_y ' ') b := by
  induction xs with
  | nil => intro b; rfl
  | cons x xs ih =>
    intro b
    simp only [List.foldl_cons]
    exact ih (setItem b x b.cursor_y ' ')

/-- Pointwise effect of blanking the cells of a fixed row `y` at the columns
listed in `xs`. -/
theorem setFoldY_getCell (y : Int) (hy : 0 ≤ y) :
    ∀ (xs : List Int) (b : DisplayBuffer),
      (∀ row ∈ b.contents, row.length = b.width) → b.contents.length = b.height →
      (∀ x ∈ xs, 0 ≤ x) → ∀ i j : Nat, i < b.width → j < b.height →
      getCell (xs.foldl (fun acc x => setItem acc x y ' ') b) i j
        = if (j : Int) = y ∧ (i : Int) ∈ xs then (⟨' ', b.color⟩ : Cell) else getCell b i j := by
  intro xs
  induction xs with
  | nil =>
    intro b _ _ _ i j _ _
    simp
  | cons x xs ih =>
    intro b hrows hlen hxs i j hi hj
    simp only [List.foldl_cons]
    have hx0 : 0 ≤ x := hxs x (List.mem_cons_self x xs)
    have h1 : ∀ row ∈ (setItem b x y ' ').contents, row.length = (setItem b x y ' ').width := by
      simpa using setItem_rows b x y ' ' hrows
    have h2 : (setItem b x y ' ').contents.length = (setItem b x y ' ').height := by
      simpa using hlen
    have hrec := ih (setItem b x y ' ') h1 h2 (fun z hz => hxs z (List.mem_cons_of_mem x hz)) i j (by simpa using hi) (by simpa using hj)
    rw [hrec, getCell_setItem]
    have hjlen : j < b.contents.length := by rw [hlen]; exact hj
    have hrowlen : (b.contents.getD j []).length = b.width := hrows _ (getD_in_range_mem hjlen [])
    have hilen : i < (b.contents.getD j []).length := by rw [hrowlen]; exact hi
    have hilen2 : i < b.contents[j].length := by
      rw [← List.getD_eq_getElem b.contents [] hjlen]
      exact hilen
    simp only [setItem_color]
    by_cases hjy : (j : Int) = y
    · have hjy2 : y.toNat = j := by omega
      by_cases hix : (i : Int) = x
      · have hix2 : x.toNat = i := by omega
        simp [hjy, hix, hjy2, hix2, hjlen, hilen, hilen2, List.mem_cons]
      · have hix2 : ¬ (x.toNat = i) := by omega
        by_cases hmem : (i : Int) ∈ xs
        · simp [hjy, hix, hmem, hjy2, hix2, List.mem_cons]
        · simp [hjy, hix, hmem, hjy2, hix2, List.mem_cons]
    · have hjy2 : ¬ (y.toNat = j) := by omega
      simp [hjy, hjy2]

/-- Pointwise effect of the erase screen pass: blanking all columns of the
rows listed in `ys`. -/
theorem screenFold_getCell :
    ∀ (ys : List Int) (b : DisplayBuffer),
      (∀ row ∈ b.contents, row.length = b.width) → b.contents.length = b.height →
      (∀ y ∈ ys, 0 ≤ y) → ∀ i j : Nat, i < b.width → j < b.height →
      getCell (ys.foldl (fun acc y => (intRange 0 acc.width).foldl (fun a2 x => setItem a2 x y ' ') acc) b) i j
        = if (j : Int) ∈ ys then (⟨' ', b.color⟩ : Cell) else getCell b i j := by
  intro ys
  induction ys with
  | nil =>
    intro b _ _ _ i j _ _
    simp
  | cons y ys ih =>
    intro b hrows hlen hys i j hi hj
    simp only [List.foldl_cons]
    have hy0 : 0 ≤ y := hys y (List.mem_cons_self y ys)
    have hpres : Pres b ((intRange 0 (b.width : Int)).foldl (fun a2 x => setItem a2 x y ' ') b) :=
      setFoldY_pres y _ b
    have hb1 : getCell ((intRange 0 (b.width : Int)).foldl (fun a2 x => setItem a2 x y ' ') b) i j
        = if (j : Int) = y ∧ (i : Int) ∈ intRange 0 (b.width : Int) then (⟨' ', b.color⟩ : Cell) else getCell b i j :=
      setFoldY_getCell y hy0 _ b hrows hlen (fun z hz => ((mem_intRange 0 _ z).mp hz).1) i j hi hj
    set b1 := (intRange 0 (b.width : Int)).foldl (fun a2 x => setItem a2 x y ' ') b with hb1def
    have h1 : ∀ row ∈ b1.contents, row.length = b1.width := by
      rw [hpres.1]
      exact pres_rows hpres hrows
    have h2 : b1.contents.length = b1.height := by
      rw [hpres.2.1, pres_length hpres, hlen]
    have hrec := ih b1 h1 h2 (fun z hz => hys z (List.mem_cons_of_mem y hz)) i j (by rw [hpres.1]; exact hi) (by rw [hpres.2.1]; exact hj)
    rw [hrec, hb1, hpres.2.2.2.2.1]
    have himem : (i : Int) ∈ intRange 0 (b.width : Int) := by
      rw [mem_intRange]
      omega
    by_cases hjys : (j : Int) ∈ ys
    · simp [hjys, List.mem_cons]
    · by_cases hjy : (j : Int) = y
      · simp [hjys, hjy, himem, List.mem_cons]
      · simp [hjys, hjy, List.mem_cons]

/-! ### Structural description of one scroll step -/

theorem modifyAt_id : ∀ (l : List α) (n : Nat), modifyAt (fun a => a) l n = l
  | [], _ => rfl
  | _ :: _, 0 => rfl
  | a :: as, n + 1 => by simp [modifyAt, modifyAt_id as n]

theorem modifyAt_comp (f g : α → α) :
    ∀ (l : List α) (n : Nat), modifyAt f (modifyAt g l n) n = modifyAt (fun a => f (g a)) l n
  | [], _ => rfl
  | _ :: _, 0 => rfl
  | a :: as, n + 1 => by simp [modifyAt, modifyAt_comp f g as n]

theorem modifyAt_append_at_length (f : α → α) :
    ∀ (l : List α) (a : α), modifyAt f (l ++ [a]) l.length = l ++ [f a]
  | [], a => rfl
  | x :: xs, a => by simp [modifyAt, modifyAt_append_at_length f xs a]

/-- The scroll blank pass reads `self.height` afresh at each `__setitem__`,
but no step changes it. -/
theorem heightFold_eq (xs : List Int) :
    ∀ b : DisplayBuffer, xs.foldl (fun acc x => setItem acc x ((acc.height : Int) - 1) ' ') b
      = xs.foldl (fun acc x => setItem acc x ((b.height : Int) - 1) ' ') b := by
  induction xs with
  | nil => intro b; rfl
  | cons x xs ih =>
    intro b
    simp only [List.foldl_cons]
    exact ih (setItem b x ((b.height : Int) - 1) ' ')

/-- A fold of `setItem`s at one fixed row equals a single row update. -/
theorem setFoldY_contents (y : Int) :
    ∀ (xs : List Int) (b : DisplayBuffer),
      xs.foldl (fun acc x => setItem acc x y ' ') b
        = { b with contents := modifyAt (fun row => xs.foldl (fun r x => r.set x.toNat ⟨' ', b.color⟩) row) b.contents y.toNat } := by
  intro xs
  induction xs with
  | nil => intro b; simp only [List.foldl_nil, modifyAt_id]
  | cons x xs ih =>
    intro b
    simp only [List.foldl_cons]
    rw [ih (setItem b x y ' ')]
    simp only [setItem]
    rw [modifyAt_comp]

theorem foldl_set_length (cell : Cell) (xs : List Int) (row : List Cell) :
    (xs.foldl (fun r x => r.set x.toNat cell) row).length = row.length := by
  induction xs generalizing row with
  | nil => rfl
  | cons x xs ih => simp [ih]

/-- Pointwise effect of setting the cells at columns `[a, a+n)` of one row. -/
theorem foldl_set_getD (cell d : Cell) :
    ∀ (n : Nat) (a : Int), 0 ≤ a → ∀ (row : List Cell) (j : Nat),
      ((intRangeGo n a).foldl (fun r x => r.set x.toNat cell) row).getD j d
        = if a ≤ (j : Int) ∧ (j : Int) < a + n ∧ j < row.length then cell else row.getD j d := by
  intro n
  induction n with
  | zero =>
    intro a _ row j
    rw [if_neg]
    · rfl
    · omega
  | succ n ih =>
    intro a ha row j
    simp only [intRangeGo, List.foldl_cons]
    rw [ih (a + 1) (by omega), getD_set, List.length_set]
    split_ifs <;> first | rfl | (exfalso; omega)

/-- Blanking every column of a full-width row yields a constant row. -/
theorem blankRow_eq (w : Nat) (cell : Cell) (row : List Cell) (hrow : row.length = w) :
    (intRange 0 (w : Int)).foldl (fun r x => r.set x.toNat cell) row = List.replicate w cell := by
  apply List.ext_getElem
  · rw [foldl_set_length, hrow, List.length_replicate]
  · intro n h1 h2
    have h1b : n < row.length := by rw [foldl_set_length] at h1; exact h1
    have hw : ((w : Int) - 0).toNat = w := by omega
    have hgd : ((intRange 0 (w : Int)).foldl (fun r x => r.set x.toNat cell) row).getD n cell = cell := by
      rw [intRange, hw, foldl_set_getD cell cell w 0 (by omega) row n]
      rw [if_pos ⟨by omega, by omega, h1b⟩]
    rw [← List.getD_eq_getElem _ cell h1, hgd, List.getElem_replicate cell h2]

/-- One scroll step: the top row is dropped, and a row of blank cells
stamped with the *current* colour is appended; `cursor_y` drops by one. -/
theorem scrollOnce_spec (b : DisplayBuffer) (hlen : b.contents.length = b.height)
    (hrows : ∀ row ∈ b.contents, row.length = b.width) (hh : 0 < b.height) :
    scrollOnce b = { b with contents := b.contents.tail ++ [List.replicate b.width (⟨' ', b.color⟩ : Cell)], cursor_y := b.cursor_y - 1 } := by
  obtain ⟨c0, cs, hc⟩ : ∃ c0 cs, b.contents = c0 :: cs := by
    cases hcc : b.contents with
    | nil => exfalso; rw [hcc] at hlen; simp at hlen; omega
    | cons c0 cs => exact ⟨c0, cs, rfl⟩
  have hc0 : c0.length = b.width := hrows c0 (by rw [hc]; exact List.mem_cons_self _ _)
  have hcs : cs.length = b.height - 1 := by
    rw [hc] at hlen
    simp at hlen
    omega
  unfold scrollOnce
  simp only [hc, List.tail_cons, List.headD_cons]
  rw [heightFold_eq, setFoldY_contents]
  dsimp only
  have hidx : ((b.height : Int) - 1).toNat = cs.length := by omega
  rw [hidx, modifyAt_append_at_length, blankRow_eq b.width _ c0 hc0]

/-- Closed form of the scroll loop when it runs `k ≥ 1` times: the top `k`
rows are discarded and `min k height` freshly blanked rows (stamped with the
current colour) appear at the bottom; the cursor lands on the last row. -/
theorem scrollGo_closed :
    ∀ (k : Nat) (b : DisplayBuffer), b.contents.length = b.height →
      (∀ row ∈ b.contents, row.length = b.width) → 0 < b.height →
      (b.cursor_y + 1 - b.height).toNat = k → (b.height : Int) ≤ b.cursor_y →
      scrollGo k b = { b with
        contents := b.contents.drop k ++ List.replicate (min k b.height) (List.replicate b.width (⟨' ', b.color⟩ : Cell)),
        cursor_y := (b.height : Int) - 1 } := by
  intro k
  induction k with
  | zero =>
    intro b _ _ hh hk hge
    exfalso
    omega
  | succ m ih =>
    intro b hlen hrows hh hk hge
    have hb' := scrollOnce_spec b hlen hrows hh
    have htl : b.contents.tail.length = b.height - 1 := by
      rw [List.length_tail, hlen]
    rw [scrollGo, if_pos hge, hb']
    by_cases hm : m = 0
    · subst hm
      have hcy : b.cursor_y = (b.height : Int) := by omega
      rw [scrollGo]
      have h1 : min 1 b.height = 1 := by omega
      rw [h1, List.replicate_one, ← List.drop_one, hcy]
    · have hm1 : 1 ≤ m := by omega
      set R : List Cell := List.replicate b.width (⟨' ', b.color⟩ : Cell) with hR
      have hlen' : (b.contents.tail ++ [R]).length = b.height := by
        simp [htl]
        omega
      have hrows' : ∀ row ∈ b.contents.tail ++ [R], row.length = b.width := by
        intro row hrow
        rcases List.mem_append.mp hrow with h | h
        · exact hrows row (List.mem_of_mem_tail h)
        · rw [List.mem_singleton.mp h, hR, List.length_replicate]
      have hrec := ih { b with contents := b.contents.tail ++ [R], cursor_y := b.cursor_y - 1 } hlen' hrows' hh (by dsimp; omega) (by dsimp; omega)
      rw [hrec]
      have key : (b.contents.tail ++ [R]).drop m ++ List.replicate (min m b.height) R
          = b.contents.drop (m + 1) ++ List.replicate (min (m + 1) b.height) R := by
        by_cases hmh : m ≤ b.height - 1
        · rw [List.drop_append_of_le_length (by omega), ← List.drop_one, List.drop_drop]
          have e1 : min m b.height = m := by omega
          have e2 : min (m + 1) b.height = m + 1 := by omega
          rw [e1, e2, List.replicate_succ, List.append_assoc, List.singleton_append, Nat.add_comm 1 m]
        · have e1 : min m b.height = b.height := by omega
          have e2 : min (m + 1) b.height = b.height := by omega
          rw [e1, e2, List.drop_eq_nil_of_le (by simp [htl]; omega), List.drop_eq_nil_of_le (by omega)]
      dsimp only
      rw [key]

/-! ### Invariant preservation through every operation -/

theorem mkBuffer_inv (w h : Nat) (hw : 0 < w) (hh : 0 < h) : Inv (mkBuffer w h) := by
  refine ⟨hw, hh, le_refl 0, ?_, le_refl 0, ?_, by simp [mkBuffer], ?_⟩
  · show (0 : Int) < (w : Int)
    exact_mod_cast hw
  · show (0 : Int) < (h : Int)
    exact_mod_cast hh
  · intro row hrow
    have hrep : row = List.replicate w {} := List.eq_of_mem_replicate (by simpa [mkBuffer] using hrow)
    rw [hrep, List.length_replicate]
    rfl

theorem scrollGo_inv :
    ∀ (fuel : Nat) (b : DisplayBuffer),
      0 < b.width → 0 < b.height → 0 ≤ b.cursor_x → b.cursor_x < (b.width : Int) →
      0 ≤ b.cursor_y → b.contents.length = b.height → (∀ row ∈ b.contents, row.length = b.width) →
      b.cursor_y < (b.height : Int) + fuel →
      Inv (scrollGo fuel b) := by
  intro fuel
  induction fuel with
  | zero =>
    intro b h1 h2 h3 h4 h5 h6 h7 h8
    exact ⟨h1, h2, h3, h4, h5, by simpa using h8, h6, h7⟩
  | succ m ih =>
    intro b h1 h2 h3 h4 h5 h6 h7 h8
    rw [scrollGo]
    by_cases hge : (b.height : Int) ≤ b.cursor_y
    · rw [if_pos hge, scrollOnce_spec b h6 h7 h2]
      apply ih
      · exact h1
      · exact h2
      · exact h3
      · exact h4
      · dsimp
        omega
      · dsimp
        rw [List.length_append, List.length_tail, h6]
        simp
        omega
      · intro row hrow
        dsimp at hrow
        rcases List.mem_append.mp hrow with h | h
        · exact h7 row (List.mem_of_mem_tail h)
        · rw [List.mem_singleton.mp h, List.length_replicate]
      · dsimp
        omega
    · rw [if_neg hge]
      exact ⟨h1, h2, h3, h4, h5, by omega, h6, h7⟩

theorem scrollLoop_inv (b : DisplayBuffer)
    (h1 : 0 < b.width) (h2 : 0 < b.height) (h3 : 0 ≤ b.cursor_x) (h4 : b.cursor_x < (b.width : Int))
    (h5 : 0 ≤ b.cursor_y) (h6 : b.contents.length = b.height) (h7 : ∀ row ∈ b.contents, row.length = b.width) :
    Inv (scrollLoop b) := by
  apply scrollGo_inv _ b h1 h2 h3 h4 h5 h6 h7
  omega

theorem moveCursor_inv (b : DisplayBuffer) (hb : Inv b) (dx dy : Int) (hdy : 0 ≤ dy) :
    Inv (moveCursor b dx dy) := by
  obtain ⟨h1, h2, h3, h4, h5, h6, h7, h8⟩ := hb
  unfold moveCursor
  apply scrollLoop_inv
  · exact h1
  · exact h2
  · dsimp
    split_ifs <;> omega
  · dsimp
    split_ifs <;> omega
  · dsimp
    split_ifs <;> omega
  · exact h7
  · exact h8

theorem writeText_inv (b : DisplayBuffer) (hb : Inv b) (text : List Char) : Inv (writeText b text) := by
  refine foldl_preserve ?_ text b hb
  intro acc c h
  exact moveCursor_inv _ (setItem_inv _ _ _ _ h) 1 0 (by omega)

theorem writeCR_inv (b : DisplayBuffer) (hb : Inv b) : Inv (writeCR b) :=
  moveCursor_inv b hb _ 0 (by omega)

theorem writeLF_inv (b : DisplayBuffer) (hb : Inv b) : Inv (writeLF b) :=
  moveCursor_inv b hb _ 1 (by omega)

theorem writeBackspace_inv (b : DisplayBuffer) (hb : Inv b) : Inv (writeBackspace b) :=
  setItem_inv _ _ _ _ (moveCursor_inv b hb (-1) 0 (by omega))

theorem writeSgr_inv (b : DisplayBuffer) (hb : Inv b) (seq : List Char) : Inv (writeSgr b seq).1 := by
  obtain ⟨h1, h2, h3, h4, h5, h6, h7, h8⟩ := hb
  unfold writeSgr
  split_ifs <;> exact ⟨h1, h2, h3, h4, h5, h6, h7, h8⟩

theorem erase_inv (b : DisplayBuffer) (hb : Inv b) (f : Char) (s : List Char) :
    ∀ b', erase b f s = some b' → Inv b' := by
  intro b' h
  have hline : Inv ((intRange b.cursor_x b.width).foldl (fun acc x => setItem acc x acc.cursor_y ' ') b) := by
    refine foldl_preserve ?_ _ b hb
    intro acc x hacc
    exact setItem_inv _ _ _ _ hacc
  unfold erase at h
  dsimp only at h
  split at h
  · exact absurd h (by simp)
  · rename_i ranges startx endx starty endy heq
    split at h
    · obtain rfl := Option.some.inj h
      refine foldl_preserve ?_ _ b hb
      intro acc x hacc
      exact setItem_inv _ _ _ _ hacc
    · obtain rfl := Option.some.inj h
      refine foldl_preserve ?_ _ _ ?_
      · intro acc y hacc
        refine foldl_preserve ?_ _ _ hacc
        intro a2 x ha2
        exact setItem_inv _ _ _ _ ha2
      · refine foldl_preserve ?_ _ b hb
        intro acc x hacc
        exact setItem_inv _ _ _ _ hacc

theorem writeCsi_inv (b : DisplayBuffer) (hb : Inv b) (sequence : List Char) : Inv (writeCsi b sequence).1 := by
  unfold writeCsi
  split
  · exact hb
  · rename_i function heq
    split_ifs with hm hjk
    · exact writeSgr_inv b hb _
    · dsimp only
      split
      · rename_i b1 heq2
        exact erase_inv b hb _ _ b1 heq2
      · exact hb
    · exact hb

theorem writeStep_inv (b : DisplayBuffer) (hb : Inv b) (data : List Char) : Inv (writeStep b data).1 := by
  unfold writeStep
  split
  · exact hb
  · split
    · exact writeCsi_inv b hb _
    · split
      · exact hb
      · split
        · exact writeText_inv b hb _
        · split
          · exact hb
          · split_ifs
            · exact writeBackspace_inv b hb
            · exact writeCR_inv b hb
            · exact writeLF_inv b hb
            · exact hb

theorem writeGo_inv : ∀ (fuel : Nat) (b : DisplayBuffer), Inv b → ∀ (data : List Char), Inv (writeGo fuel b data).1 := by
  intro fuel
  induction fuel with
  | zero => intro b hb data; exact hb
  | succ m ih =>
    intro b hb data
    rw [writeGo]
    dsimp only
    split_ifs with he hf
    · exact hb
    · exact writeStep_inv b hb data
    · exact ih _ (writeStep_inv b hb data) _

theorem write_inv (b : DisplayBuffer) (hb : Inv b) (data : List Char) : Inv (write b data).1 :=
  writeGo_inv _ b hb data

theorem feed_inv : ∀ (chunks : List (List Char)) (b : DisplayBuffer), Inv b → Inv (feed b chunks).1 := by
  intro chunks
  induction chunks with
  | nil => intro b hb; exact hb
  | cons d ds ih =>
    intro b hb
    rw [feed]
    split_ifs with he
    · exact write_inv b hb d
    · exact ih _ (write_inv b hb d)

/-! ### Renderer counting lemmas -/

theorem countColorSets_append (l1 l2 : List REvent) :
    countColorSets (l1 ++ l2) = countColorSets l1 + countColorSets l2 := by
  simp [countColorSets, List.filter_append]

theorem renderCell_snd (prev : Option PColor) (cell : Cell) : (renderCell prev cell).2 = cell.color := by
  unfold renderCell
  split_ifs with h
  · rfl
  · push_neg at h
    exact h.symm

theorem renderCell_count (prev : Option PColor) (cell : Cell) :
    countColorSets (renderCell prev cell).1 = if cell.color ≠ prev then 1 else 0 := by
  unfold renderCell
  split_ifs with h
  · rcases hc : cell.color with _ | c
    · simp [countColorSets, isColorSet]
    · rcases c with n | ⟨r, g, bb⟩ <;> simp [countColorSets, isColorSet]
  · simp [countColorSets, isColorSet]

theorem renderRow_spec : ∀ (row : List Cell) (prev : Option PColor),
    countColorSets (renderRow prev row).1 = countTransitions prev (row.map Cell.color) ∧
    (renderRow prev row).2 = (row.map Cell.color).foldl (fun _ c => c) prev := by
  intro row
  induction row with
  | nil => intro prev; exact ⟨rfl, rfl⟩
  | cons cell rest ih =>
    intro prev
    rw [renderRow]
    constructor
    · dsimp only
      rw [countColorSets_append, renderCell_count, renderCell_snd, (ih _).1]
      simp [countTransitions]
    · dsimp only
      rw [renderCell_snd, (ih _).2]
      simp

theorem countTransitions_append (l1 l2 : List (Option PColor)) :
    ∀ prev, countTransitions prev (l1 ++ l2)
      = countTransitions prev l1 + countTransitions (l1.foldl (fun _ c => c) prev) l2 := by
  induction l1 with
  | nil => intro prev; simp [countTransitions]
  | cons c cs ih =>
    intro prev
    simp only [List.cons_append, countTransitions, List.foldl_cons]
    rw [show cs.append l2 = cs ++ l2 from rfl, ih c]
    omega

theorem renderRows_spec : ∀ (rows : List (List Cell)) (prev : Option PColor),
    countColorSets (renderRows prev rows).1
      = countTransitions prev ((rows.map (fun row => row.map Cell.color)).flatten) ∧
    (renderRows prev rows).2 = ((rows.map (fun row => row.map Cell.color)).flatten).foldl (fun _ c => c) prev := by
  intro rows
  induction rows with
  | nil => intro prev; exact ⟨rfl, rfl⟩
  | cons row rest ih =>
    intro prev
    rw [renderRows]
    constructor
    · dsimp only
      rw [countColorSets_append, countColorSets_append, (renderRow_spec row prev).1, (renderRow_spec row prev).2, (ih _).1]
      have hnl : countColorSets [REvent.writeNewline] = 0 := rfl
      rw [hnl]
      simp only [List.map_cons, List.flatten_cons, countTransitions_append]
      omega
    · dsimp only
      rw [(renderRow_spec row prev).2, (ih _).2]
      simp only [List.map_cons, List.flatten_cons, List.foldl_append]

/-! ### Erase: one equation per recognized mode string -/

theorem erase_mode_empty (b : DisplayBuffer) (f : Char) :
    erase b f [] =
      (if f = 'K' then some ((intRange b.cursor_x (b.width : Int)).foldl (fun acc x => setItem acc x acc.cursor_y ' ') b)
       else some ((intRange (b.cursor_y + 1) (b.height : Int)).foldl (fun acc y => (intRange 0 (acc.width : Int)).foldl (fun a2 x => setItem a2 x y ' ') acc) ((intRange b.cursor_x (b.width : Int)).foldl (fun acc x => setItem acc x acc.cursor_y ' ') b))) := by
  unfold erase
  rw [if_pos (Or.inr rfl)]

theorem erase_mode_zero (b : DisplayBuffer) (f : Char) :
    erase b f ['0'] =
      (if f = 'K' then some ((intRange b.cursor_x (b.width : Int)).foldl (fun acc x => setItem acc x acc.cursor_y ' ') b)
       else some ((intRange (b.cursor_y + 1) (b.height : Int)).foldl (fun acc y => (intRange 0 (acc.width : Int)).foldl (fun a2 x => setItem a2 x y ' ') acc) ((intRange b.cursor_x (b.width : Int)).foldl (fun acc x => setItem acc x acc.cursor_y ' ') b))) := by
  unfold erase
  rw [if_pos (Or.inl rfl)]

theorem erase_mode_one (b : DisplayBuffer) (f : Char) :
    erase b f ['1'] =
      (if f = 'K' then some ((intRange 0 b.cursor_x).foldl (fun acc x => setItem acc x acc.cursor_y ' ') b)
       else some ((intRange 0 (b.cursor_y - 1)).foldl (fun acc y => (intRange 0 (acc.width : Int)).foldl (fun a2 x => setItem a2 x y ' ') acc) ((intRange 0 b.cursor_x).foldl (fun acc x => setItem acc x acc.cursor_y ' ') b))) := by
  unfold erase
  rw [if_neg (by decide), if_pos rfl]

theorem erase_mode_two (b : DisplayBuffer) (f : Char) :
    erase b f ['2'] =
      (if f = 'K' then some ((intRange 0 (b.width : Int)).foldl (fun acc x => setItem acc x acc.cursor_y ' ') b)
       else some ((intRange 0 (b.height : Int)).foldl (fun acc y => (intRange 0 (acc.width : Int)).foldl (fun a2 x => setItem a2 x y ' ') acc) ((intRange 0 (b.width : Int)).foldl (fun acc x => setItem acc x acc.cursor_y ' ') b))) := by
  unfold erase
  rw [if_neg (by decide), if_neg (by decide), if_pos rfl]

/-! ### Width and height are never mutated -/

theorem dims_foldl {f : DisplayBuffer → α → DisplayBuffer}
    (hf : ∀ acc x, (f acc x).width = acc.width ∧ (f acc x).height = acc.height) :
    ∀ (xs : List α) (b : DisplayBuffer), (xs.foldl f b).width = b.width ∧ (xs.foldl f b).height = b.height := by
  intro xs
  induction xs with
  | nil => intro b; exact ⟨rfl, rfl⟩
  | cons x xs ih =>
    intro b
    rw [List.foldl_cons]
    exact ⟨(ih (f b x)).1.trans (hf b x).1, (ih (f b x)).2.trans (hf b x).2⟩

theorem scrollOnce_dims (b : DisplayBuffer) :
    (scrollOnce b).width = b.width ∧ (scrollOnce b).height = b.height := by
  unfold scrollOnce
  dsimp only
  refine dims_foldl ?_ _ _
  intro acc x
  exact ⟨rfl, rfl⟩

theorem scrollGo_dims : ∀ (fuel : Nat) (b : DisplayBuffer),
    (scrollGo fuel b).width = b.width ∧ (scrollGo fuel b).height = b.height := by
  intro fuel
  induction fuel with
  | zero => intro b; exact ⟨rfl, rfl⟩
  | succ m ih =>
    intro b
    rw [scrollGo]
    split_ifs
    · exact ⟨(ih _).1.trans (scrollOnce_dims b).1, (ih _).2.trans (scrollOnce_dims b).2⟩
    · exact ⟨rfl, rfl⟩

theorem moveCursor_dims (b : DisplayBuffer) (dx dy : Int) :
    (moveCursor b dx dy).width = b.width ∧ (moveCursor b dx dy).height = b.height := by
  unfold moveCursor scrollLoop
  exact scrollGo_dims _ _

theorem writeText_dims (b : DisplayBuffer) (text : List Char) :
    (writeText b text).width = b.width ∧ (writeText b text).height = b.height := by
  unfold writeText
  refine dims_foldl ?_ text b
  intro acc c
  exact moveCursor_dims _ 1 0

theorem writeSgr_dims (b : DisplayBuffer) (seq : List Char) :
    (writeSgr b seq).1.width = b.width ∧ (writeSgr b seq).1.height = b.height := by
  unfold writeSgr
  split_ifs <;> exact ⟨rfl, rfl⟩

theorem erase_dims (b : DisplayBuffer) (f : Char) (s : List Char) :
    ∀ b', erase b f s = some b' → b'.width = b.width ∧ b'.height = b.height := by
  intro b' h
  unfold erase at h
  dsimp only at h
  split at h
  · exact absurd h (by simp)
  · have line : ∀ (xs : List Int) (b0 : DisplayBuffer),
        (xs.foldl (fun acc x => setItem acc x acc.cursor_y ' ') b0).width = b0.width ∧
        (xs.foldl (fun acc x => setItem acc x acc.cursor_y ' ') b0).height = b0.height := by
      intro xs b0
      refine dims_foldl ?_ xs b0
      intro acc x
      exact ⟨rfl, rfl⟩
    have outer : ∀ (ys : List Int) (b0 : DisplayBuffer),
        (ys.foldl (fun acc y => (intRange 0 (acc.width : Int)).foldl (fun a2 x => setItem a2 x y ' ') acc) b0).width = b0.width ∧
        (ys.foldl (fun acc y => (intRange 0 (acc.width : Int)).foldl (fun a2 x => setItem a2 x y ' ') acc) b0).height = b0.height := by
      intro ys b0
      refine dims_foldl ?_ ys b0
      intro acc y
      refine dims_foldl ?_ _ acc
      intro a2 x
      exact ⟨rfl, rfl⟩
    split at h
    · obtain rfl := Option.some.inj h
      exact line _ b
    · obtain rfl := Option.some.inj h
      exact ⟨(outer _ _).1.trans (line _ b).1, (outer _ _).2.trans (line _ b).2⟩

theorem writeCsi_dims (b : DisplayBuffer) (sequence : List Char) :
    (writeCsi b sequence).1.width = b.width ∧ (writeCsi b sequence).1.height = b.height := by
  unfold writeCsi
  split
  · exact ⟨rfl, rfl⟩
  · split_ifs
    · exact writeSgr_dims b _
    · dsimp only
      split
      · rename_i b1 heq
        exact erase_dims b _ _ b1 heq
      · exact ⟨rfl, rfl⟩
    · exact ⟨rfl, rfl⟩

theorem writeStep_dims (b : DisplayBuffer) (data : List Char) :
    (writeStep b data).1.width = b.width ∧ (writeStep b data).1.height = b.height := by
  unfold writeStep
  split
  · exact ⟨rfl, rfl⟩
  · split
    · exact writeCsi_dims b _
    · split
      · exact ⟨rfl, rfl⟩
      · split
        · exact writeText_dims b _
        · split
          · exact ⟨rfl, rfl⟩
          · split_ifs
            · exact moveCursor_dims b (-1) 0
            · exact moveCursor_dims b _ 0
            · exact moveCursor_dims b _ 1
            · exact ⟨rfl, rfl⟩

theorem writeGo_dims : ∀ (fuel : Nat) (b : DisplayBuffer) (data : List Char),
    (writeGo fuel b data).1.width = b.width ∧ (writeGo fuel b data).1.height = b.height := by
  intro fuel
  induction fuel with
  | zero => intro b data; exact ⟨rfl, rfl⟩
  | succ m ih =>
    intro b data
    rw [writeGo]
    dsimp only
    split_ifs
    · exact ⟨rfl, rfl⟩
    · exact writeStep_dims b data
    · exact ⟨(ih _ _).1.trans (writeStep_dims b data).1, (ih _ _).2.trans (writeStep_dims b data).2⟩

theorem feed_dims : ∀ (chunks : List (List Char)) (b : DisplayBuffer),
    (feed b chunks).1.width = b.width ∧ (feed b chunks).1.height = b.height := by
  intro chunks
  induction chunks with
  | nil => intro b; exact ⟨rfl, rfl⟩
  | cons d ds ih =>
    intro b
    rw [feed]
    split_ifs
    · exact ⟨writeGo_dims _ _ _ |>.1, writeGo_dims _ _ _ |>.2⟩
    · exact ⟨(ih _).1.trans (writeGo_dims _ _ _).1, (ih _).2.trans (writeGo_dims _ _ _).2⟩

theorem sum_map_length_const : ∀ (l : List (List Cell)) (w : Nat),
    (∀ row ∈ l, row.length = w) → (l.map List.length).sum = l.length * w := by
  intro l
  induction l with
  | nil => intro w _; simp
  | cons r rs ih =>
    intro w hall
    simp only [List.map_cons, List.sum_cons, List.length_cons]
    rw [hall r (List.mem_cons_self r rs), ih w (fun row hrow => hall row (List.mem_cons_of_mem r hrow))]
    ring

theorem cellCount_of_inv (b : DisplayBuffer) (hb : Inv b) : cellCount b = b.width * b.height := by
  unfold cellCount
  rw [sum_map_length_const b.contents b.width hb.2.2.2.2.2.2.2, hb.2.2.2.2.2.2.1]
  ring

/-! ### Claim theorems -/

/-- Claim C1, evaluated on the code at the failing input: after CSI
`38;5;196` the cell written with `"X"` carries colour `Indexed 5` — the
literal marker parameter, because `writeSgr` stores `parts[i+1]` and skips
only one parameter — not `Indexed 196`; the stray `196` is then reprocessed
as an unknown SGR code and ignored.  The subsequent bare reset then `"Y"`
does yield colour `none`. -/
theorem C1_sgr_indexed_code_bug :
    getCell (write (mkBuffer 4 2) "\x1b[38;5;196mX\x1b[0mY".toList).1 0 0 = ⟨'X', some (.indexed 5)⟩ ∧
    getCell (write (mkBuffer 4 2) "\x1b[38;5;196mX\x1b[0mY".toList).1 1 0 = ⟨'Y', none⟩ ∧
    sgrLoop [38, 5, 196] none = (some (.indexed 5), false) ∧
    some (PColor.indexed 5) ≠ some (PColor.indexed 196) := by
  decide

/-- Claim C2, evaluated on the code at the failing input: after CSI
`38;2;10;20;30` the cell written with `"Z"` carries colour `Indexed 0`, not
`Rgb 10 20 30`: `writeSgr` reads the truecolor channels starting at the
marker itself (`parts[i+1..i+3] = (2,10,20)`) and consumes only three
parameters, so the trailing `30` is reprocessed as foreground code 30 and
overwrites the colour with `Indexed 0`. -/
theorem C2_sgr_truecolor_code_bug :
    getCell (write (mkBuffer 4 2) "\x1b[38;2;10;20;30mZ".toList).1 0 0 = ⟨'Z', some (.indexed 0)⟩ ∧
    sgrLoop [38, 2, 10, 20, 30] none = (some (.indexed 0), false) ∧
    (some (PColor.indexed 0) : Option PColor) ≠ some (PColor.rgb 10 20 30) := by
  decide

/-- Claim C3: from a freshly constructed buffer with positive dimensions,
after feeding any finite list of chunks through `write`, the cursor bounds
`0 ≤ cursor_x < width` and `0 ≤ cursor_y < height` hold, the grid is exactly
`height` rows of `width` cells (`width × height` cells in total), and the
dimensions are unchanged.  `Inv` is preserved by every individual mutation
(`setItem_inv`, `moveCursor_inv`, `writeText_inv`, `erase_inv`,
`writeSgr_inv`, `writeStep_inv`), so it also holds after each intermediate
mutation, including across scrolls. -/
theorem C3_bounds_and_grid_invariant (w h : Nat) (hw : 0 < w) (hh : 0 < h) (chunks : List (List Char)) :
    Inv (feed (mkBuffer w h) chunks).1 ∧
    (feed (mkBuffer w h) chunks).1.width = w ∧
    (feed (mkBuffer w h) chunks).1.height = h ∧
    cellCount (feed (mkBuffer w h) chunks).1 = w * h := by
  have hinv := feed_inv chunks (mkBuffer w h) (mkBuffer_inv w h hw hh)
  have hdims := feed_dims chunks (mkBuffer w h)
  refine ⟨hinv, hdims.1, hdims.2, ?_⟩
  rw [cellCount_of_inv _ hinv, hdims.1, hdims.2]
  rfl

theorem C3_bounds_and_grid_invariant_witness :
    Inv (feed (mkBuffer 2 2) ["a\x0a".toList]).1 ∧
    (feed (mkBuffer 2 2) ["a\x0a".toList]).1.width = 2 ∧
    (feed (mkBuffer 2 2) ["a\x0a".toList]).1.height = 2 ∧
    cellCount (feed (mkBuffer 2 2) ["a\x0a".toList]).1 = 2 * 2 :=
  C3_bounds_and_grid_invariant 2 2 (by decide) (by decide) ["a\x0a".toList]

/-- Claim C4, evaluated on the code at the failing input: a lone SGR code 38
is fatal, not merely logged — the guard `len(parts) >= i+1` is always true,
so `parts[i+1]` is read and raises IndexError (modelled by the `true` error
flag), aborting `write`. -/
theorem C4_sgr_38_short_params_code_bug :
    (write (mkBuffer 2 2) "\x1b[38m".toList).2 = true ∧
    sgrLoop [38] none = (none, true) ∧
    sgrLoop [38, 2, 10] none = (none, true) := by
  decide

/-- Claim C5, evaluated on the code at the failing input: an erase command
with an unrecognized mode string (here CSI `3J`) is fatal, not a no-op —
none of `startx`/`endx`/`starty`/`endy` is assigned, so `range(startx,
endx)` raises UnboundLocalError (modelled by `none` / the `true` error flag),
aborting `write`. -/
theorem C5_erase_unknown_mode_code_bug :
    erase (mkBuffer 2 2) 'J' ['3'] = none ∧
    (write (mkBuffer 2 2) "\x1b[3J".toList).2 = true := by
  decide

/-- Claim C6, refuted at a concrete input: on a 3×3 buffer of `'a'` cells
with the cursor at `(1, 2)`, erase-to-start of the screen (CSI `1J`) leaves
the cell in the cursor column `(1, 2)` and the whole row directly above the
cursor (row 1) untouched, although the claim requires both blanked: the
line pass stops *before* the cursor column and the screen pass stops before
row `cursor_y - 1`. -/
theorem C6_erase_to_start_counterexample :
    (erase c6buf 'J' ['1']).map (fun r => (getCell r 1 2, getCell r 0 1)) = some (⟨'a', none⟩, ⟨'a', none⟩) ∧
    c6buf.cursor_x = 1 ∧ c6buf.cursor_y = 2 ∧ c6buf.color = none ∧
    (⟨'a', none⟩ : Cell) ≠ ⟨' ', none⟩ := by
  decide

/-- Claim C7, refuted at a concrete input: on a 1×1 buffer, setting colour 1
(SGR 31) and then scrolling via a line feed leaves the freshly appended
blank row stamped with the *current* colour `Indexed 1`, not `none`, since
the scroll blanks the new row through `__setitem__`. -/
theorem C7_scroll_color_counterexample :
    getCell (write (mkBuffer 1 1) "\x1b[31m\x0a".toList).1 0 0 = ⟨' ', some (.indexed 1)⟩ ∧
    (some (PColor.indexed 1) : Option PColor) ≠ none := by
  decide

/-- Claim C7 amended: while `cursor_y ≥ height` the loop removes the logical
top row, appends a blank row whose cells are all reset to space with the
buffer's *current colour* (not `none`), and decrements `cursor_y`; this
repeats until `cursor_y < height`, so an overshoot of `k` lines scrolls `k`
times in one call, leaving `drop k` of the rows followed by `min k height`
blank rows and the cursor on the last row. -/
theorem C7_scroll_amended (b : DisplayBuffer) (hlen : b.contents.length = b.height)
    (hrows : ∀ row ∈ b.contents, row.length = b.width) (hh : 0 < b.height)
    (hge : (b.height : Int) ≤ b.cursor_y) :
    scrollLoop b = { b with
      contents := b.contents.drop (b.cursor_y + 1 - b.height).toNat
        ++ List.replicate (min (b.cursor_y + 1 - b.height).toNat b.height) (List.replicate b.width (⟨' ', b.color⟩ : Cell)),
      cursor_y := (b.height : Int) - 1 } :=
  scrollGo_closed _ b hlen hrows hh rfl hge

theorem C7_scroll_amended_witness :
    scrollLoop c7buf = { c7buf with
      contents := c7buf.contents.drop (c7buf.cursor_y + 1 - c7buf.height).toNat
        ++ List.replicate (min (c7buf.cursor_y + 1 - c7buf.height).toNat c7buf.height) (List.replicate c7buf.width (⟨' ', c7buf.color⟩ : Cell)),
      cursor_y := (c7buf.height : Int) - 1 } :=
  C7_scroll_amended c7buf (by decide) (by decide) (by decide) (by decide)

/-- Claim C8, refuted at a concrete input: SGR 22 is not a no-op — after
setting colour 1 via SGR 31, processing SGR 22 resets the colour to `none`
(the code has `self.color = None` in the 22 branch). -/
theorem C8_sgr22_counterexample :
    (write (mkBuffer 2 2) "\x1b[31m".toList).1.color = some (.indexed 1) ∧
    (write (write (mkBuffer 2 2) "\x1b[31m".toList).1 "\x1b[22m".toList).1.color = none ∧
    (some (PColor.indexed 1) : Option PColor) ≠ none := by
  decide

/-- Claim C8 amended: the codes 1 (bold), 4 (underline), 7 (inverse), 24,
27 and the background codes 40-48 are recognized no-ops that leave the
colour state unchanged and are never confused with foreground codes; code
22, however, resets the colour to `none` (like 0 and 39). -/
theorem C8_noop_codes_amended (c : Option PColor) (p : Nat) (rest : List Nat)
    (hp : p ∈ ([1, 4, 7, 24, 27, 40, 41, 42, 43, 44, 45, 46, 47, 48] : List Nat)) :
    sgrLoop (p :: rest) c = sgrLoop rest c ∧ sgrLoop (22 :: rest) c = sgrLoop rest none := by
  constructor
  · fin_cases hp <;> rfl
  · rfl

theorem C8_noop_codes_amended_witness :
    sgrLoop [4, 31] none = sgrLoop [31] none ∧ sgrLoop [22, 31] none = sgrLoop [31] none :=
  C8_noop_codes_amended none 4 [31] (by decide)

/-- Claim C9: `render` walks the grid in row-major order tracking the last
emitted colour (starting from `none`) and emits a colour-set call exactly
when a cell's colour differs from it, so the number of colour-set calls
equals the number of colour transitions; in particular a single row coloured
`[A, A, B, B, A]` with `A ≠ B` both non-`none` produces exactly 3 calls. -/
theorem C9_renderer_minimal_transitions :
    (∀ b : DisplayBuffer, countColorSets (render b) = countTransitions none (rowMajorColors b)) ∧
    (∀ (A B : PColor) (ch : Char), A ≠ B →
      countColorSets (render { mkBuffer 5 1 with contents := [[⟨ch, some A⟩, ⟨ch, some A⟩, ⟨ch, some B⟩, ⟨ch, some B⟩, ⟨ch, some A⟩]] }) = 3) := by
  constructor
  · intro b
    unfold render rowMajorColors
    exact (renderRows_spec b.contents none).1
  · intro A B ch hAB
    have hBA : B ≠ A := Ne.symm hAB
    show countColorSets (renderRows none [[⟨ch, some A⟩, ⟨ch, some A⟩, ⟨ch, some B⟩, ⟨ch, some B⟩, ⟨ch, some A⟩]]).1 = 3
    rw [(renderRows_spec _ none).1]
    simp [countTransitions, hAB, hBA]

theorem C9_renderer_minimal_transitions_witness :
    countColorSets (render (mkBuffer 2 1)) = countTransitions none (rowMajorColors (mkBuffer 2 1)) ∧
    countColorSets (render { mkBuffer 5 1 with contents := [[⟨'x', some (.indexed 1)⟩, ⟨'x', some (.indexed 1)⟩, ⟨'x', some (.indexed 2)⟩, ⟨'x', some (.indexed 2)⟩, ⟨'x', some (.indexed 1)⟩]] }) = 3 :=
  ⟨C9_renderer_minimal_transitions.1 (mkBuffer 2 1),
   C9_renderer_minimal_transitions.2 (.indexed 1) (.indexed 2) 'x' (by decide)⟩

/-- Claim C10: every recognized erase (modes `""`, `"0"`, `"1"`, `"2"`, final
byte `J` or `K`) succeeds, leaves the cursor position and the current colour
unchanged, and every cell is either untouched or blanked to a space stamped
with the buffer's *current* colour (blanking goes through the same
`__setitem__` path as ordinary writes). -/
theorem C10_erase_frame_effect (b : DisplayBuffer) (f : Char) (mode : List Char)
    (hf : f = 'J' ∨ f = 'K') (hmode : mode = [] ∨ mode = ['0'] ∨ mode = ['1'] ∨ mode = ['2']) :
    ∃ b', erase b f mode = some b' ∧ b'.cursor_x = b.cursor_x ∧ b'.cursor_y = b.cursor_y ∧
      b'.color = b.color ∧
      ∀ i j : Nat, getCell b' i j = getCell b i j ∨ getCell b' i j = (⟨' ', b.color⟩ : Cell) := by
  have hstep : ∀ (acc : DisplayBuffer) (x y : Int),
      EraseApprox b acc → EraseApprox b (setItem acc x y ' ') := by
    rintro acc x y ⟨hpres, hcells⟩
    refine ⟨pres_setItem x y ' ' hpres, ?_⟩
    intro i j
    rw [getCell_setItem]
    split_ifs with h1 h2
    · right
      rw [hpres.2.2.2.2.1]
    · exact hcells i j
    · exact hcells i j
  have hline : ∀ (xs : List Int) (b0 : DisplayBuffer), EraseApprox b b0 →
      EraseApprox b (xs.foldl (fun acc x => setItem acc x acc.cursor_y ' ') b0) := by
    intro xs b0 h0
    refine foldl_preserve ?_ xs b0 h0
    intro acc x h
    exact hstep acc x acc.cursor_y h
  have hscreen : ∀ (ys : List Int) (b0 : DisplayBuffer), EraseApprox b b0 →
      EraseApprox b (ys.foldl (fun acc y => (intRange 0 (acc.width : Int)).foldl (fun a2 x => setItem a2 x y ' ') acc) b0) := by
    intro ys b0 h0
    refine foldl_preserve ?_ ys b0 h0
    intro acc y h
    refine foldl_preserve ?_ _ acc h
    intro a2 x h2
    exact hstep a2 x y h2
  have hfin : ∀ r : DisplayBuffer, EraseApprox b r →
      (r.cursor_x = b.cursor_x ∧ r.cursor_y = b.cursor_y ∧ r.color = b.color ∧
        ∀ i j : Nat, getCell r i j = getCell b i j ∨ getCell r i j = (⟨' ', b.color⟩ : Cell)) := by
    rintro r ⟨hpres, hcells⟩
    exact ⟨hpres.2.2.1, hpres.2.2.2.1, hpres.2.2.2.2.1, hcells⟩
  have hPb : EraseApprox b b := ⟨pres_refl b, fun i j => Or.inl rfl⟩
  rcases hmode with rfl | rfl | rfl | rfl
  · rw [erase_mode_empty]
    rcases hf with rfl | rfl
    · rw [if_neg (by decide)]
      exact ⟨_, rfl, hfin _ (hscreen _ _ (hline _ _ hPb))⟩
    · rw [if_pos rfl]
      exact ⟨_, rfl, hfin _ (hline _ _ hPb)⟩
  · rw [erase_mode_zero]
    rcases hf with rfl | rfl
    · rw [if_neg (by decide)]
      exact ⟨_, rfl, hfin _ (hscreen _ _ (hline _ _ hPb))⟩
    · rw [if_pos rfl]
      exact ⟨_, rfl, hfin _ (hline _ _ hPb)⟩
  · rw [erase_mode_one]
    rcases hf with rfl | rfl
    · rw [if_neg (by decide)]
      exact ⟨_, rfl, hfin _ (hscreen _ _ (hline _ _ hPb))⟩
    · rw [if_pos rfl]
      exact ⟨_, rfl, hfin _ (hline _ _ hPb)⟩
  · rw [erase_mode_two]
    rcases hf with rfl | rfl
    · rw [if_neg (by decide)]
      exact ⟨_, rfl, hfin _ (hscreen _ _ (hline _ _ hPb))⟩
    · rw [if_pos rfl]
      exact ⟨_, rfl, hfin _ (hline _ _ hPb)⟩

/-- Claim C6 amended: erase-to-start (mode `"1"`) blanks the current line
from column 0 up to but *excluding* the cursor column (the code iterates
`range(0, cursor_x)`), and when the target is the screen (final byte `J`) it
additionally blanks every full row from the first row up to but *excluding*
row `cursor_y - 1` (the code iterates `range(0, cursor_y - 1)`, so the
inclusive end is `cursor_y - 2`); blanked cells carry the current colour. -/
theorem C6_erase_to_start_amended (b : DisplayBuffer) (hb : Inv b) :
    ∃ bJ bK, erase b 'J' ['1'] = some bJ ∧ erase b 'K' ['1'] = some bK ∧
      ∀ i j : Nat, i < b.width → j < b.height →
        getCell bJ i j = (if ((j : Int) = b.cursor_y ∧ (i : Int) < b.cursor_x) ∨ (j : Int) < b.cursor_y - 1 then (⟨' ', b.color⟩ : Cell) else getCell b i j) ∧
        getCell bK i j = (if (j : Int) = b.cursor_y ∧ (i : Int) < b.cursor_x then (⟨' ', b.color⟩ : Cell) else getCell b i j) := by
  obtain ⟨h1, h2, h3, h4, h5, h6, h7, h8⟩ := hb
  have hlinecell : ∀ i j : Nat, i < b.width → j < b.height →
      getCell ((intRange 0 b.cursor_x).foldl (fun acc x => setItem acc x acc.cursor_y ' ') b) i j
        = if (j : Int) = b.cursor_y ∧ (i : Int) < b.cursor_x then (⟨' ', b.color⟩ : Cell) else getCell b i j := by
    intro i j hi hj
    rw [cursorFold_eq]
    rw [setFoldY_getCell b.cursor_y h5 _ b h8 h7 (fun x hx => ((mem_intRange _ _ _).mp hx).1) i j hi hj]
    by_cases hcond : (j : Int) = b.cursor_y ∧ (i : Int) < b.cursor_x
    · rw [if_pos ⟨hcond.1, (mem_intRange _ _ _).mpr ⟨by omega, hcond.2⟩⟩, if_pos hcond]
    · have hnc : ¬ ((j : Int) = b.cursor_y ∧ (i : Int) ∈ intRange 0 b.cursor_x) := by
        intro hc
        exact hcond ⟨hc.1, ((mem_intRange _ _ _).mp hc.2).2⟩
      rw [if_neg hnc, if_neg hcond]
  have hpres1 : Pres b ((intRange 0 b.cursor_x).foldl (fun acc x => setItem acc x acc.cursor_y ' ') b) :=
    cursorFold_pres _ b
  have hscreencell : ∀ i j : Nat, i < b.width → j < b.height →
      getCell ((intRange 0 (b.cursor_y - 1)).foldl (fun acc y => (intRange 0 (acc.width : Int)).foldl (fun a2 x => setItem a2 x y ' ') acc) ((intRange 0 b.cursor_x).foldl (fun acc x => setItem acc x acc.cursor_y ' ') b)) i j
        = if (j : Int) ∈ intRange 0 (b.cursor_y - 1) then (⟨' ', b.color⟩ : Cell)
          else getCell ((intRange 0 b.cursor_x).foldl (fun acc x => setItem acc x acc.cursor_y ' ') b) i j := by
    intro i j hi hj
    have hrows1 : ∀ row ∈ ((intRange 0 b.cursor_x).foldl (fun acc x => setItem acc x acc.cursor_y ' ') b).contents,
        row.length = ((intRange 0 b.cursor_x).foldl (fun acc x => setItem acc x acc.cursor_y ' ') b).width := by
      rw [hpres1.1]
      exact pres_rows hpres1 h8
    have hlen1 : ((intRange 0 b.cursor_x).foldl (fun acc x => setItem acc x acc.cursor_y ' ') b).contents.length
        = ((intRange 0 b.cursor_x).foldl (fun acc x => setItem acc x acc.cursor_y ' ') b).height := by
      rw [pres_length hpres1, hpres1.2.1, h7]
    have hmain := screenFold_getCell (intRange 0 (b.cursor_y - 1)) _ hrows1 hlen1
      (fun y hy => ((mem_intRange _ _ _).mp hy).1) i j (by rw [hpres1.1]; exact hi) (by rw [hpres1.2.1]; exact hj)
    rw [hmain, hpres1.2.2.2.2.1]
  refine ⟨(intRange 0 (b.cursor_y - 1)).foldl (fun acc y => (intRange 0 (acc.width : Int)).foldl (fun a2 x => setItem a2 x y ' ') acc) ((intRange 0 b.cursor_x).foldl (fun acc x => setItem acc x acc.cursor_y ' ') b), (intRange 0 b.cursor_x).foldl (fun acc x => setItem acc x acc.cursor_y ' ') b, ?_, ?_, ?_⟩
  · rw [erase_mode_one, if_neg (by decide)]
  · rw [erase_mode_one, if_pos rfl]
  · intro i j hi hj
    refine ⟨?_, hlinecell i j hi hj⟩
    rw [hscreencell i j hi hj]
    by_cases hjscr : (j : Int) < b.cursor_y - 1
    · rw [if_pos ((mem_intRange _ _ _).mpr ⟨by omega, hjscr⟩), if_pos (Or.inr hjscr)]
    · have hnm : ¬ ((j : Int) ∈ intRange 0 (b.cursor_y - 1)) := by
        rw [mem_intRange]
        omega
      rw [if_neg hnm, hlinecell i j hi hj]
      by_cases hc : (j : Int) = b.cursor_y ∧ (i : Int) < b.cursor_x
      · rw [if_pos hc, if_pos (Or.inl hc)]
      · have hnc2 : ¬ (((j : Int) = b.cursor_y ∧ (i : Int) < b.cursor_x) ∨ (j : Int) < b.cursor_y - 1) := by
          intro hd
          rcases hd with hd | hd
          · exact hc hd
          · exact hjscr hd
        rw [if_neg hc, if_neg hnc2]

theorem C6_erase_to_start_amended_witness :
    ∃ bJ bK, erase c6buf 'J' ['1'] = some bJ ∧ erase c6buf 'K' ['1'] = some bK ∧
      ∀ i j : Nat, i < c6buf.width → j < c6buf.height →
        getCell bJ i j = (if ((j : Int) = c6buf.cursor_y ∧ (i : Int) < c6buf.cursor_x) ∨ (j : Int) < c6buf.cursor_y - 1 then (⟨' ', c6buf.color⟩ : Cell) else getCell c6buf i j) ∧
        getCell bK i j = (if (j : Int) = c6buf.cursor_y ∧ (i : Int) < c6buf.cursor_x then (⟨' ', c6buf.color⟩ : Cell) else getCell c6buf i j) :=
  C6_erase_to_start_amended c6buf (by decide)

theorem C10_erase_frame_effect_witness :
    ∃ b', erase (mkBuffer 2 2) 'J' ['2'] = some b' ∧ b'.cursor_x = (mkBuffer 2 2).cursor_x ∧
      b'.cursor_y = (mkBuffer 2 2).cursor_y ∧ b'.color = (mkBuffer 2 2).color ∧
      ∀ i j : Nat, getCell b' i j = getCell (mkBuffer 2 2) i j ∨ getCell b' i j = (⟨' ', (mkBuffer 2 2).color⟩ : Cell) :=
  C10_erase_frame_effect (mkBuffer 2 2) 'J' ['2'] (Or.inl rfl) (by decide)

end AsciiExport

